import Mathlib

/-!
Verification of the hook-variable-name resolver of the React DevTools fork.

This file gives a shallow embedding of the resolver pipeline
(`injectHookVariableNamesFunction` and its helpers): the AST classifier,
the binding resolver, the source-map URL extractor, the bundle fetcher,
the orchestrator and the merge step.  JavaScript runtime behaviour is made
explicit: a property read on `null`/`undefined` is a `typeError`, a thrown
`Error` is `jsError`, absent object fields are `Option.none`, truthiness of
strings and numbers is spelled out, and the promise chain is modelled by
`PromiseResult` (resolved / rejected / never settles).  External
collaborators (HTTP fetch, the Babel parser, the source-map consumer, the
WHATWG URL constructor) are supplied through an `Env` record of oracles.
-/

/-- JavaScript exceptions observed by the pipeline: `typeError` models a
property access on `null`/`undefined`, `jsError msg` models `throw new
Error(msg)`. -/
inductive JsError where
  | typeError
  | jsError (msg : String)
deriving Repr, DecidableEq

/-- Babel AST nodes, restricted to the node kinds the classifier inspects.
`hole` models the `null` entry Babel places in an `ArrayPattern.elements`
list for an elided element; `otherNode tag` is any other node kind, of which
only the `type` tag is ever observed. -/
inductive JsNode where
  | identifier (name : String)
  | numericLiteral (value : Int)
  | memberExpression (object : JsNode) (property : JsNode) (computed : Bool)
  | callExpression (callee : JsNode)
  | arrayPattern (elements : List JsNode)
  | hole
  | otherNode (tag : String)
deriving Repr

/-- The Babel `type` tag of a node (`hole` stands for a literal `null`). -/
def JsNode.typeTag : JsNode → String
  | .identifier _ => "Identifier"
  | .numericLiteral _ => "NumericLiteral"
  | .memberExpression _ _ _ => "MemberExpression"
  | .callExpression _ => "CallExpression"
  | .arrayPattern _ => "ArrayPattern"
  | .hole => "null"
  | .otherNode tag => tag

/-- JavaScript `node.name`: defined on identifiers, `undefined` otherwise. -/
def JsNode.nameOpt : JsNode → Option String
  | .identifier n => some n
  | _ => none

/-- JavaScript `node.object`: defined on member expressions only. -/
def JsNode.objectOpt : JsNode → Option JsNode
  | .memberExpression o _ _ => some o
  | _ => none

/-- JavaScript `node.property`: defined on member expressions only. -/
def JsNode.propertyOpt : JsNode → Option JsNode
  | .memberExpression _ p _ => some p
  | _ => none

/-- JavaScript `node.callee`: defined on call expressions only. -/
def JsNode.calleeOpt : JsNode → Option JsNode
  | .callExpression c => some c
  | _ => none

mutual
/-- Structural equality of AST nodes; it models JavaScript reference
equality (`===`) on Babel node paths, which in this pipeline only ever
compares paths drawn from one traversal of one file, where distinct paths
differ structurally (at least in their source location). -/
def JsNode.beq : JsNode → JsNode → Bool
  | .identifier a, .identifier b => a == b
  | .numericLiteral a, .numericLiteral b => a == b
  | .memberExpression o p c, .memberExpression o' p' c' =>
    JsNode.beq o o' && JsNode.beq p p' && c == c'
  | .callExpression a, .callExpression b => JsNode.beq a b
  | .arrayPattern es, .arrayPattern es' => JsNode.beqList es es'
  | .hole, .hole => true
  | .otherNode a, .otherNode b => a == b
  | _, _ => false

/-- Pointwise `JsNode.beq` on element lists. -/
def JsNode.beqList : List JsNode → List JsNode → Bool
  | [], [] => true
  | h :: t, h' :: t' => JsNode.beq h h' && JsNode.beqList t t'
  | _, _ => false
end

mutual
theorem JsNode.beq_refl : (n : JsNode) → JsNode.beq n n = true
  | .identifier _ => by simp [JsNode.beq]
  | .numericLiteral _ => by simp [JsNode.beq]
  | .memberExpression o p c => by
    simp [JsNode.beq, JsNode.beq_refl o, JsNode.beq_refl p]
  | .callExpression a => by simp [JsNode.beq, JsNode.beq_refl a]
  | .arrayPattern es => by simp [JsNode.beq, JsNode.beqList_refl es]
  | .hole => by simp [JsNode.beq]
  | .otherNode _ => by simp [JsNode.beq]

theorem JsNode.beqList_refl : (l : List JsNode) → JsNode.beqList l l = true
  | [] => by simp [JsNode.beqList]
  | h :: t => by simp [JsNode.beqList, JsNode.beq_refl h, JsNode.beqList_refl t]
end

/-- A Babel `VariableDeclarator` node together with the one piece of its
path/location data the pipeline reads (`loc.start.line`).  `init` is `none`
for a declaration without an initializer (`let x;`, where Babel stores
`init: null`). -/
structure VariableDeclarator where
  id : JsNode
  init : Option JsNode
  startLine : Nat
deriving Repr

/-- In the source every classifier receives a Babel `NodePath` and reads
`path.node`; the embedding identifies a path with its declarator node. -/
abbrev NodePath := VariableDeclarator

/-- Reference equality (`===`) on declarator paths, modelled structurally. -/
def VariableDeclarator.beq (a b : VariableDeclarator) : Bool :=
  JsNode.beq a.id b.id &&
    (match a.init, b.init with
     | none, none => true
     | some x, some y => JsNode.beq x y
     | _, _ => false) &&
    a.startLine == b.startLine

theorem declaratorBeq_refl (a : VariableDeclarator) :
    VariableDeclarator.beq a a = true := by
  cases a with
  | mk id init startLine =>
    cases init <;> simp [VariableDeclarator.beq, JsNode.beq_refl]

/-- Scan for the first path `===` to `x`, carrying the current index. -/
def indexOfPathFrom (x : NodePath) : List NodePath → Nat → Option Nat
  | [], _ => none
  | y :: t, i => if VariableDeclarator.beq y x then some i else indexOfPathFrom x t (i + 1)

/-- Index of the first path that is `===` to `x` (JavaScript
`Array.prototype.indexOf`), `none` when absent (`-1` in the source). -/
def indexOfPath (l : List NodePath) (x : NodePath) : Option Nat :=
  indexOfPathFrom x l 0

/-- Sequential `Array.prototype.find` with a predicate that may throw; the
first thrown exception aborts the search. -/
def exceptFind {α ε : Type} (p : α → Except ε Bool) : List α → Except ε (Option α)
  | [] => .ok none
  | x :: xs => do
    if ← p x then pure (some x) else exceptFind p xs

/-- Sequential `Array.prototype.filter` with a predicate that may throw; the
first thrown exception aborts the traversal. -/
def exceptFilter {α ε : Type} (p : α → Except ε Bool) : List α → Except ε (List α)
  | [] => .ok []
  | x :: xs => do
    let b ← p x
    let rest ← exceptFilter p xs
    pure (if b then x :: rest else rest)

/-- JavaScript line-terminator characters (not matched by `.`). -/
def isLineTerminatorChar (c : Char) : Bool :=
  c = '\n' || c = '\r' || c = '\u2028' || c = '\u2029'

/-- Test of `/^use[A-Z0-9].*$/` on a name (source: `isHookName`). -/
def isHookName (name : String) : Bool :=
  match name.toList with
  | 'u' :: 's' :: 'e' :: c :: rest =>
    (('A' ≤ c && c ≤ 'Z') || ('0' ≤ c && c ≤ '9')) &&
      rest.all (fun ch => !(isLineTerminatorChar ch))
  | _ => false

/-- Test of `/^[A-Z].*/` on a namespace name. -/
def isPascalCaseNameSpaceTest (s : String) : Bool :=
  match s.toList with
  | c :: _ => 'A' ≤ c && c ≤ 'Z'
  | [] => false

/-- Source `isHook`: a hook-name identifier, or a non-computed member
expression whose property is recursively a hook and whose object is a
PascalCase identifier. -/
def isHook : JsNode → Bool
  | .identifier n => isHookName n
  | .memberExpression obj prop computed =>
    if !computed && isHook prop then
      match obj with
      | .identifier objName => isPascalCaseNameSpaceTest objName
      | _ => false
    else false
  | _ => false

/-- Source `isReactFunction`: `node.name === functionName`, or a member
expression `React.functionName`. -/
def isReactFunction (node : JsNode) (functionName : String) : Bool :=
  node.nameOpt == some functionName ||
    (match node with
     | .memberExpression o p _ =>
       o.nameOpt == some "React" && p.nameOpt == some functionName
     | _ => false)

/-- Source `isConfirmedHookDeclaration`: `path.node.init` must be a call
expression with a hook callee.  Reading `.type` of a `null` init throws. -/
def isConfirmedHookDeclaration (path : NodePath) : Except JsError Bool := do
  let node ← match path.init with
    | some n => pure n
    | none => throw .typeError
  match node with
  | .callExpression callee => pure (isHook callee)
  | _ => pure false

/-- Source `checkNodeLocation`: `line === path.node.loc.start.line`; the
line delivered by the source-map consumer may be `null` (then never equal). -/
def checkNodeLocation (path : NodePath) (line : Option Nat) : Bool :=
  line == some path.startLine

/-- Source `isStateOrReducerHook`: reads `path.node.init.callee` (throws on a
`null` init) and hands the callee to `isReactFunction`, which throws on an
`undefined` callee (`node.name` on `undefined`). -/
def isStateOrReducerHook (path : NodePath) : Except JsError Bool := do
  let init ← match path.init with
    | some n => pure n
    | none => throw .typeError
  match init.calleeOpt with
  | some callee =>
    pure (isReactFunction callee "useState" || isReactFunction callee "useReducer")
  | none => throw .typeError

/-- Source `isPotentialHookDeclaration`: a call expression with a hook
callee, or any member expression or identifier initializer.  Reading
`.type` of a `null` init (`let x;`) throws. -/
def isPotentialHookDeclaration (path : NodePath) : Except JsError Bool := do
  let nodePathInit ← match path.init with
    | some n => pure n
    | none => throw .typeError
  match nodePathInit with
  | .callExpression callee => pure (isHook callee)
  | .memberExpression _ _ _ => pure true
  | .identifier _ => pure true
  | _ => pure false

/-- The AST of a parsed source file, seen through the only traversal the
pipeline performs: its `VariableDeclarator` nodes in traversal order. -/
abbrev File := List VariableDeclarator

/-- Source `getPotentialHookDeclarationsFromAST`: collect, in traversal
order, every declarator that could belong to a hook binding; an exception
raised by the classifier aborts the whole traversal. -/
def getPotentialHookDeclarationsFromAST : File → Except JsError (List NodePath)
  | [] => .ok []
  | p :: rest => do
    let b ← isPotentialHookDeclaration p
    let tail ← getPotentialHookDeclarationsFromAST rest
    pure (if b then p :: tail else tail)

/-- Source location a hook observation carries (`hookSource`); every field
may be `null`. -/
structure HookSource where
  fileName : Option String
  lineNumber : Option Nat
  columnNumber : Option Nat
deriving Repr, DecidableEq

/-- A runtime hook observation (`HooksNode`).  `id` is `null` exactly for
custom hooks; `hookVariableName` is absent (`none`) until the pipeline
writes it. -/
structure HooksNode where
  id : Option Int
  name : String
  subHooks : List HooksNode
  hookSource : HookSource
  hookVariableName : Option String
deriving Repr

/-- A hook tree is an ordered list of hook observations. -/
abbrev HooksTree := List HooksNode

/-- JavaScript truthiness of a possibly-`null` string (empty is falsy). -/
def jsTruthyStr : Option String → Bool
  | some s => s ≠ ""
  | none => false

/-- JavaScript truthiness of a possibly-`null` number (zero is falsy). -/
def jsTruthyNat : Option Nat → Bool
  | some n => n ≠ 0
  | none => false

mutual
/-- The recursive `(id, name, subHooks structure)` tuple of two hooks is
compared; all other fields are ignored. -/
def structEqNode : HooksNode → HooksNode → Bool
  | ⟨id, nm, subHooks, _, _⟩, ⟨id', nm', subHooks', _, _⟩ =>
    id == id' && nm == nm' && structEqList subHooks subHooks'

/-- Pointwise `structEqNode` on hook lists (same length required). -/
def structEqList : HooksTree → HooksTree → Bool
  | [], [] => true
  | h :: t, h' :: t' => structEqNode h h' && structEqList t t'
  | _, _ => false
end

mutual
theorem structEqNode_refl : (h : HooksNode) → structEqNode h h = true
  | ⟨id, nm, subHooks, src, hv⟩ => by
    simp [structEqNode, structEqList_refl subHooks]

theorem structEqList_refl : (l : HooksTree) → structEqList l l = true
  | [] => by simp [structEqList]
  | h :: t => by simp [structEqList, structEqNode_refl h, structEqList_refl t]
end

/-- Source `isNonDeclarativePrimitiveHook`: primitive hooks that are never
assigned to variables. -/
def isNonDeclarativePrimitiveHook (hook : HooksNode) : Bool :=
  ["Effect", "ImperativeHandle", "LayoutEffect", "DebugValue"].contains hook.name

/-- Source `nodeContainsHookVariableName`: the declarator's own binding is
readable when its `id` is an array pattern, or an identifier that is not a
state/reducer hook (the latter check may throw, see
`isStateOrReducerHook`). -/
def nodeContainsHookVariableName (hookNode : NodePath) : Except JsError Bool :=
  match hookNode.id with
  | .arrayPattern _ => pure true
  | .identifier _ => do
    let sr ← isStateOrReducerHook hookNode
    pure (!sr)
  | _ => pure false

/-- Source `filterMemberNodesOfTargetHook`: does `hookNode` read the
target's binding, either as `alias[i]` (`init.object?.name`) or as a whole
(`init.name`)?  Both sides of each `===` may be `undefined`; a `null` init
throws. -/
def filterMemberNodesOfTargetHook (targetHookNode hookNode : NodePath) :
    Except JsError Bool := do
  let targetHookName := targetHookNode.id.nameOpt
  let init ← match hookNode.init with
    | some n => pure n
    | none => throw .typeError
  let objectName := match init.objectOpt with
    | some o => o.nameOpt
    | none => none
  pure (targetHookName == objectName || targetHookName == init.nameOpt)

/-- Source `filterMemberWithHookVariableName`: keeps declarators whose init
accesses index `0` of the state pair.  Reading `.type` of the `undefined`
`property` of a non-member init throws; so does a `null` init. -/
def filterMemberWithHookVariableName (hook : NodePath) : Except JsError Bool := do
  let init ← match hook.init with
    | some n => pure n
    | none => throw .typeError
  match init.propertyOpt with
  | none => throw .typeError
  | some p =>
    match p with
    | .numericLiteral v => pure (v == 0)
    | .hole => throw .typeError
    | _ => pure false

/-- Source `getHookVariableName`: the JavaScript return value is a string or
`undefined`, modelled as `Option String` (`some ""` is the empty string the
custom-hook array-pattern branch returns).  `elements[0]` of an empty
pattern is `undefined` and of an elided element is `null`; reading `.name`
of either throws.  The default branch throws `Error` with the node type in
the message. -/
def getHookVariableName (hook : NodePath) (isCustomHook : Bool := false) :
    Except JsError (Option String) :=
  match hook.id with
  | .arrayPattern elements =>
    if !isCustomHook then
      match elements.head? with
      | none => throw .typeError
      | some .hole => throw .typeError
      | some el => pure el.nameOpt
    else pure (some "")
  | .identifier n => pure (some n)
  | other => throw (.jsError ("Invalid node type: " ++ other.typeTag))

/-- Cache of the candidate pools, keyed by original-source path (the key the
consumer returns may be `null`). -/
abbrev PoolCache := List (Option String × List NodePath)

/-- JavaScript `Map.prototype.get`. -/
def jsMapGet {κ β : Type} [DecidableEq κ] : List (κ × β) → κ → Option β
  | [], _ => none
  | (k, v) :: t, key => if k = key then some v else jsMapGet t key

/-- JavaScript `Map.prototype.set`: updates the existing entry in place or
appends a new one (insertion order is preserved). -/
def jsMapSet {κ β : Type} [DecidableEq κ] : List (κ × β) → κ → β → List (κ × β)
  | [], key, v => [(key, v)]
  | (k, w) :: t, key, v =>
    if k = key then (k, v) :: t else (k, w) :: jsMapSet t key v

/-- Source `getFilteredHookASTNodes`: splice the target out of the shared
pool (and store the spliced pool back in the cache), then either the target
itself carries the readable binding, or the members of the remaining pool
that reference it are collected.  The updated pool cache is returned even
when a classifier throws, because the source mutates the shared arrays
before any throwing step. -/
def getFilteredHookASTNodes (potentialReactHookASTNode : NodePath)
    (potentialHooksFound : List NodePath) (source : Option String)
    (potentialHooksOfFile : PoolCache) :
    (Except JsError (List NodePath)) × PoolCache := Id.run do
  let (pool, cache) :=
    match indexOfPath potentialHooksFound potentialReactHookASTNode with
    | some i =>
      let spliced := potentialHooksFound.eraseIdx i
      (spliced, jsMapSet potentialHooksOfFile source spliced)
    | none => (potentialHooksFound, potentialHooksOfFile)
  match nodeContainsHookVariableName potentialReactHookASTNode with
  | .error e => return (.error e, cache)
  | .ok true => return (.ok [potentialReactHookASTNode], cache)
  | .ok false =>
    match exceptFilter (filterMemberNodesOfTargetHook potentialReactHookASTNode) pool with
    | .error e => return (.error e, cache)
    | .ok nodes => return (.ok nodes, cache)

/-- The `switch (nodesAssociatedWithReactHookASTNode.length)` statement of
`getHookNodeWithInjectedVariableName`: size 1 uses the member itself, with
the custom-hook escape when the member `===` the confirmed declarator;
size 2 filters to the index-0 accessor and requires a unique survivor;
any other size falls back to the confirmed declarator. -/
def deriveHookVariableName (isCustomHook : Bool)
    (nodesAssociatedWithReactHookASTNode : List NodePath)
    (potentialReactHookASTNode : NodePath) : Except JsError (Option String) :=
  match nodesAssociatedWithReactHookASTNode with
  | [n0] =>
    if isCustomHook && VariableDeclarator.beq n0 potentialReactHookASTNode then
      getHookVariableName potentialReactHookASTNode isCustomHook
    else
      getHookVariableName n0
  | [n0, n1] => do
    let survivors ← exceptFilter filterMemberWithHookVariableName [n0, n1]
    match survivors with
    | [m] => getHookVariableName m
    | _ => throw (.jsError "Couldn’t isolate AST Node containing hook variable.")
  | _ => getHookVariableName potentialReactHookASTNode

/-- Source `getHookNodeWithInjectedVariableName`: derive the variable name
from the associated set by its size (see `deriveHookVariableName`) and
return the hook with `hookVariableName` written; an exception from the
derivation propagates. -/
def getHookNodeWithInjectedVariableName (originalHook : HooksNode)
    (nodesAssociatedWithReactHookASTNode : List NodePath)
    (potentialReactHookASTNode : NodePath) : Except JsError HooksNode := do
  let isCustomHook := originalHook.id == none
  let hookVariableName ← deriveHookVariableName isCustomHook
    nodesAssociatedWithReactHookASTNode potentialReactHookASTNode
  pure { originalHook with hookVariableName := hookVariableName }

/-- JavaScript `\s` (the whitespace class of `RegExp`). -/
def jsWhitespaceChar (c : Char) : Bool :=
  c = ' ' || c = '\t' || c = '\n' || c = '\r' || c = '\u000b' || c = '\u000c' ||
  c = '\u00a0' || c = '\u1680' || ('\u2000' ≤ c && c ≤ '\u200a') ||
  c = '\u2028' || c = '\u2029' || c = '\u202f' || c = '\u205f' ||
  c = '\u3000' || c = '\ufeff'

/-- Characters admitted by the token class `[^\s'"]` of the magic-comment
pattern (code points 39 and 34 are the two quote characters). -/
def isTokenChar (c : Char) : Bool :=
  !(jsWhitespaceChar c) && c.toNat ≠ 39 && c.toNat ≠ 34

/-- Strip an expected literal prefix, returning the remainder on success. -/
def stripLiteral : List Char → List Char → Option (List Char)
  | [], rest => some rest
  | c :: cs, d :: ds => if c = d then stripLiteral cs ds else none
  | _ :: _, [] => none

/-- Greatest index of a line terminator in a whitespace run: the position
the backtracking `\s*$` of the pattern settles on when the run is followed
by a non-whitespace character, since the multiline `$` asserts end of input
or a position before any ECMAScript line terminator (`\n`, `\r`,
`\u2028`, `\u2029`). -/
def lastLineTerminatorPos (ws : List Char) : Option Nat :=
  match ws.reverse.findIdx? (fun c => isLineTerminatorChar c) with
  | some j => some (ws.length - 1 - j)
  | none => none

/-- The literal part of the magic comment after the optional space. -/
def sourceMappingURLLit : List Char := "sourceMappingURL=".toList

/-- One attempt of the pattern `\/\/[#@] ?sourceMappingURL=([^\s'"]+)\s*$`
(multiline) anchored at the head of the input.  On success it returns the
full-match characters (as JavaScript `String.prototype.match` reports them,
trailing matched whitespace included) and the remaining input. -/
def tryMatchAt (l : List Char) : Option (List Char × List Char) :=
  match l with
  | '/' :: '/' :: c :: r2 =>
    if c = '#' || c = '@' then
      let (spc, r3) := match r2 with
        | ' ' :: rr => ([' '], rr)
        | _ => (([] : List Char), r2)
      match stripLiteral sourceMappingURLLit r3 with
      | none => none
      | some r4 =>
        let (tok, r5) := r4.span isTokenChar
        if tok.isEmpty then none
        else
          let (ws, rest) := r5.span jsWhitespaceChar
          if rest.isEmpty then
            some ('/' :: '/' :: c :: (spc ++ sourceMappingURLLit ++ tok ++ ws), [])
          else
            match lastLineTerminatorPos ws with
            | some k =>
              some ('/' :: '/' :: c :: (spc ++ sourceMappingURLLit ++ tok ++ ws.take k),
                    ws.drop k ++ rest)
            | none => none
    else none
  | _ => none

/-- Global scan of the pattern over the input, fuelled by the input length
(each step either consumes a non-empty match or advances one character, so
the fuel is never exhausted before the scan ends). -/
def scanMatches : Nat → List Char → List (List Char)
  | 0, _ => []
  | _ + 1, [] => []
  | fuel + 1, l =>
    match tryMatchAt l with
    | some (m, rest) => m :: scanMatches fuel rest
    | none =>
      match l with
      | [] => []
      | _ :: t => scanMatches fuel t

/-- JavaScript `urlResponse.match(sourceMappingUrlRegExp)` with the `g`
flag: the list of full-match strings (the empty list standing for the
`null` the method returns when nothing matches). -/
def jsMatchAll (s : String) : List String :=
  (scanMatches s.toList.length s.toList).map (fun cs => String.mk cs)

/-- Modelled collaborator (the WHATWG `URL` constructor used by
`isValidUrl`): `new URL(s)` succeeds exactly on absolute URLs, modelled as:
after stripping leading and trailing C0-control and space characters, the
string begins with a URI scheme — an ASCII letter followed by letters,
digits, `+`, `-` or `.` — and a colon. -/
def urlConstructorAccepts (s : String) : Bool :=
  let trimmed :=
    ((s.toList.dropWhile (fun c => c.toNat ≤ 32)).reverse.dropWhile
      (fun c => c.toNat ≤ 32)).reverse
  match trimmed with
  | c :: rest =>
    (('A' ≤ c && c ≤ 'Z') || ('a' ≤ c && c ≤ 'z')) &&
      (match rest.dropWhile (fun d =>
          ('A' ≤ d && d ≤ 'Z') || ('a' ≤ d && d ≤ 'z') || d.isDigit ||
            d = '+' || d = '-' || d = '.') with
       | ':' :: _ => true
       | _ => false)
  | [] => false

/-- Source `isValidUrl`: `new URL(possibleURL)` inside `try`/`catch`. -/
def isValidUrl (possibleURL : String) : Bool :=
  urlConstructorAccepts possibleURL

/-- JavaScript `url.slice(0, url.lastIndexOf('/'))`: when no slash occurs,
`lastIndexOf` is `-1` and `slice(0, -1)` drops the final character. -/
def jsSliceUpToLastSlash (url : String) : String :=
  let cs := url.toList
  match cs.reverse.findIdx? (· = '/') with
  | some j => String.mk (cs.take (cs.length - 1 - j))
  | none => String.mk (cs.take (cs.length - 1))

/-- JavaScript `String.prototype.split` with a single-character separator. -/
def splitOnCharList (sep : Char) : List Char → List (List Char)
  | [] => [[]]
  | c :: t =>
    let rest := splitOnCharList sep t
    if c = sep then [] :: rest
    else
      match rest with
      | h :: t' => (c :: h) :: t'
      | [] => [[c]]

/-- String wrapper of `splitOnCharList` (JavaScript `s.split(sep)`). -/
def jsSplit (s : String) (sep : Char) : List String :=
  (splitOnCharList sep s.toList).map (fun cs => String.mk cs)

/-- Source `getSourceMapURL`: match the magic comment globally; more than
one match throws; with zero matches the array is `null` and the
`sourceMappingURLInArray[0]` access throws a `TypeError`; the single match
is split on `'='` and element 1 taken (JavaScript would stringify a missing
element as `"undefined"`, but the match always contains a `'='`); the
fragment is appended to the bundle URL's directory and validated. -/
def getSourceMapURL (url : String) (urlResponse : String) : Except JsError String :=
  let sourceMappingURLInArray := jsMatchAll urlResponse
  if sourceMappingURLInArray.length > 1 then
    .error (.jsError "More than source map detected in the source file")
  else
    match sourceMappingURLInArray.head? with
    | none => .error .typeError
    | some m =>
      let sourceMapURL := (jsSplit m '=').getD 1 "undefined"
      let baseURL := jsSliceUpToLastSlash url
      let completeSourceMapURL := baseURL ++ "/" ++ sourceMapURL
      if !isValidUrl completeSourceMapURL then .error (.jsError "Invalid URL created")
      else .ok completeSourceMapURL

/-- A settled or forever-pending promise. -/
inductive PromiseResult (α : Type) where
  | resolved (value : α)
  | rejected
  | pending
deriving Repr, DecidableEq

/-- Outcome of one network `fetch(url)`: the promise rejects (network
error), or an HTTP response arrives whose `ok` flag reflects a 2xx status
and whose `text()` either decodes or fails. -/
inductive FetchOutcome where
  | networkError
  | response (ok : Bool) (text : Except Unit String)

/-- The `{data: {url, text}}` object `fetchFile` resolves with. -/
structure DownloadedFile where
  url : String
  text : String
deriving Repr, DecidableEq

/-- Collaborator view of one `SourceMapConsumer`:
`originalPositionFor` yields the original line and source (either may be
`null`), `sourceContentFor` yields the embedded original content or
`null`. -/
structure SourceConsumer where
  originalPositionFor : Nat → Nat → Option Nat × Option String
  sourceContentFor : Option String → Option String

/-- Oracles for the external collaborators of the pipeline. -/
structure Env where
  fetch : String → FetchOutcome
  babelParse : String → Except Unit File
  consumerWith : String → Except Unit SourceConsumer

/-- Source `fetchFile`: the promise executor attaches no handler to a
rejecting `fetch`, so a network error leaves the promise forever pending;
a non-2xx response or a failing `text()` rejects; otherwise it resolves
with the downloaded file. -/
def fetchFile (env : Env) (url : String) : PromiseResult DownloadedFile :=
  match env.fetch url with
  | .networkError => .pending
  | .response ok txt =>
    if ok then
      match txt with
      | .ok text => .resolved ⟨url, text⟩
      | .error _ => .rejected
    else .rejected

/-- `Promise.all`: rejected as soon as any member rejects, pending when none
rejects but some never settles, otherwise resolved with all values. -/
def promiseAll {α : Type} : List (PromiseResult α) → PromiseResult (List α)
  | [] => .resolved []
  | p :: ps =>
    match p, promiseAll ps with
    | .rejected, _ => .rejected
    | _, .rejected => .rejected
    | .pending, _ => .pending
    | _, .pending => .pending
    | .resolved v, .resolved vs => .resolved (v :: vs)

/-- Instrumentation counters for the cache claims: how many times the Babel
parser ran and how many times a candidate pool was collected during one
resolve call. -/
structure Counters where
  parses : Nat
  collects : Nat
deriving Repr, DecidableEq

/-- The two per-source-map caches (`astForSourceFiles`,
`potentialHooksOfFile`) declared inside the source-map loop of
`modifyHooksToAddVariableNames`. -/
structure MapCaches where
  potentialHooksOfFile : PoolCache
  astForSourceFiles : List (Option String × File)

/-- Return shape of `getASTFromSourceFile`. -/
structure SourceFileASTWithHookDetails where
  sourceFileAST : File
  line : Option Nat
  source : Option String

/-- Source `getASTFromSourceFile`: translate the bundled position, guard the
100000-line fail-safe (a `null` line is never greater), and produce the AST
from the cache or by parsing the content the consumer returns (`null`
content makes the parser throw).  The second component counts the parses
performed (0 or 1); the source reads `astCache` but never writes it. -/
def getASTFromSourceFile (env : Env) (consumer : SourceConsumer)
    (lineNumber columnNumber : Nat) (astCache : List (Option String × File)) :
    Except JsError (SourceFileASTWithHookDetails × Nat) := do
  let (line, source) := consumer.originalPositionFor lineNumber columnNumber
  if (match line with | some l => decide (l > 100000) | none => false) then
    throw (.jsError "Source File is too big")
  match jsMapGet astCache source with
  | some sourceFileAST => pure (⟨sourceFileAST, line, source⟩, 0)
  | none =>
    match consumer.sourceContentFor source with
    | none => throw .typeError
    | some sourceFileContent =>
      match env.babelParse sourceFileContent with
      | .ok sourceFileAST => pure (⟨sourceFileAST, line, source⟩, 1)
      | .error _ => throw (.jsError "parse error")

mutual
/-- One step of source `getUniqueFileNames`: add the hook's truthy file
name if unseen, then fold the sub-hooks (the source unions the recursive
set, which visits sub-hooks in the same order). -/
def getUniqueFileNamesNode : HooksNode → List String → List String
  | ⟨_, _, subHooks, hookSource, _⟩, acc =>
    let acc1 := match hookSource.fileName with
      | some fileName =>
        if fileName ≠ "" && !acc.contains fileName then acc ++ [fileName] else acc
      | none => acc
    if subHooks.length > 0 then getUniqueFileNamesList subHooks acc1 else acc1

/-- Fold of `getUniqueFileNamesNode` over a hook list. -/
def getUniqueFileNamesList : HooksTree → List String → List String
  | [], acc => acc
  | h :: t, acc => getUniqueFileNamesList t (getUniqueFileNamesNode h acc)
end

/-- Source `getUniqueFileNames`: insertion-ordered set of the non-null file
names of the tree. -/
def getUniqueFileNames (hookLog : HooksTree) : List String :=
  if hookLog.length ≤ 0 then [] else getUniqueFileNamesList hookLog []

/-- Source `getRelevantHooksForFile`: the top-level hooks whose truthy
`hookSource.fileName` equals the given source URL, in order. -/
def getRelevantHooksForFile (hookLog : HooksTree) (sourceUrl : String) : HooksTree :=
  if hookLog.length ≤ 0 then []
  else hookLog.filter (fun hook =>
    match hook.hookSource.fileName with
    | some fileName => fileName ≠ "" && fileName == sourceUrl
    | none => false)

mutual
/-- Nesting depth of a hook node, used to size the recursion fuel. -/
def hookDepthNode : HooksNode → Nat
  | ⟨_, _, subHooks, _, _⟩ => hookDepthList subHooks + 1

/-- Nesting depth of a hook tree. -/
def hookDepthList : HooksTree → Nat
  | [] => 0
  | h :: t => max (hookDepthNode h) (hookDepthList t)
end

/-- Source `injectSubHooksWithVariableNames`: run the pipeline on the
sub-hooks with the same source maps and, when the floating promise
resolves, replace `hook.subHooks` with the flattened per-file groups; a
rejection of that promise is unhandled and leaves the sub-hooks as they
were.  `recurse` is the recursive entry into
`modifyHooksToAddVariableNames` with the current maps. -/
def injectSubHooksWithVariableNames
    (recurse : HooksTree → Counters → (Except JsError (List HooksTree)) × Counters)
    (hook : HooksNode) (cnt : Counters) : HooksNode × Counters :=
  let (res, cnt') := recurse hook.subHooks cnt
  match res with
  | .ok subHooksLog => ({ hook with subHooks := subHooksLog.foldl (· ++ ·) [] }, cnt')
  | .error _ => (hook, cnt')

/-- The candidate-pool step of the per-hook callback: reuse the cached pool
when it is present and non-empty (`!(potentialHooksFound &&
potentialHooksFound.length > 0)` recollects on an absent or emptied entry),
otherwise collect it from the AST and store it; collection may throw.  The
collect counter instruments the claim about per-file pool computation. -/
def lookupOrCollectPool (sourceFileAST : File) (source : Option String)
    (caches : MapCaches) (cnt1 : Counters) :
    Except (JsError × Counters) (List NodePath × MapCaches × Counters) :=
  let cached := (jsMapGet caches.potentialHooksOfFile source).getD []
  if cached.length > 0 then .ok (cached, caches, cnt1)
  else
    match getPotentialHookDeclarationsFromAST sourceFileAST with
    | .error e => .error (e, cnt1)
    | .ok pool =>
      let poolCache := jsMapSet caches.potentialHooksOfFile source pool
      .ok (pool, { caches with potentialHooksOfFile := poolCache },
           { cnt1 with collects := cnt1.collects + 1 })

/-- The per-hook callback of `relevantHooks.map` inside
`modifyHooksToAddVariableNames`: require truthy line and column numbers,
obtain the AST (counting parses), obtain or collect the candidate pool
(recollected whenever the cached pool is absent or empty), locate the
confirmed declarator at the translated line, and branch exactly as the
source does; the `try`/`catch` around the naming steps returns the original
hook on any exception while keeping the pool-cache mutations already
made. -/
def processHook (env : Env)
    (recurse : HooksTree → Counters → (Except JsError (List HooksTree)) × Counters)
    (consumer : SourceConsumer) (hook : HooksNode) (caches : MapCaches)
    (cnt : Counters) : (Except JsError (HooksNode × MapCaches)) × Counters :=
  let isCustomHook := hook.id == none
  if !(jsTruthyNat hook.hookSource.lineNumber && jsTruthyNat hook.hookSource.columnNumber) then
    (.error (.jsError "Line and Column Numbers could not be found for hook"), cnt)
  else
    match getASTFromSourceFile env consumer (hook.hookSource.lineNumber.getD 0)
        (hook.hookSource.columnNumber.getD 0) caches.astForSourceFiles with
    | .error e => (.error e, cnt)
    | .ok (details, parsed) =>
      let cnt1 : Counters := { cnt with parses := cnt.parses + parsed }
      match lookupOrCollectPool details.sourceFileAST details.source caches cnt1 with
      | .error (e, cntE) => (.error e, cntE)
      | .ok (pool, caches1, cnt2) =>
        match exceptFind (fun node => do
            if checkNodeLocation node details.line then isConfirmedHookDeclaration node
            else pure false) pool with
        | .error e => (.error e, cnt2)
        | .ok none =>
          if !isCustomHook && !(isNonDeclarativePrimitiveHook hook) then
            (.error (.jsError "No Potential React Hook found at line"), cnt2)
          else if isCustomHook then
            let (hook2, cnt3) := injectSubHooksWithVariableNames recurse hook cnt2
            (.ok (hook2, caches1), cnt3)
          else
            (.ok (hook, caches1), cnt2)
        | .ok (some potentialReactHookASTNode) =>
          let (filtered, cache2) := getFilteredHookASTNodes potentialReactHookASTNode pool
              details.source caches1.potentialHooksOfFile
          let caches2 : MapCaches := { caches1 with potentialHooksOfFile := cache2 }
          match filtered with
          | .error _ => (.ok (hook, caches2), cnt2)
          | .ok nodes =>
            match getHookNodeWithInjectedVariableName hook nodes potentialReactHookASTNode with
            | .error _ => (.ok (hook, caches2), cnt2)
            | .ok newHook =>
              if newHook.subHooks.length > 0 then
                let (newHook2, cnt3) := injectSubHooksWithVariableNames recurse newHook cnt2
                (.ok (newHook2, caches2), cnt3)
              else
                (.ok (newHook, caches2), cnt2)

/-- Sequential run of `processHook` over the relevant hooks, threading the
shared per-source-map caches; the first uncaught exception aborts the whole
map (rejecting this source map's promise). -/
def processHookList (env : Env)
    (recurse : HooksTree → Counters → (Except JsError (List HooksTree)) × Counters)
    (consumer : SourceConsumer) :
    HooksTree → MapCaches → Counters →
    (Except JsError (HooksTree × MapCaches)) × Counters
  | [], caches, cnt => (.ok ([], caches), cnt)
  | h :: t, caches, cnt =>
    match processHook env recurse consumer h caches cnt with
    | (.error e, cnt') => (.error e, cnt')
    | (.ok (h', caches'), cnt') =>
      match processHookList env recurse consumer t caches' cnt' with
      | (.ok (rest, caches''), cnt'') => (.ok (h' :: rest, caches''), cnt'')
      | (.error e, cnt'') => (.error e, cnt'')

/-- The per-source-map callback of `modifyHooksToAddVariableNames`: parse
the map and build its consumer (collaborator oracle), resolve the map URL
back to the bundle URL (a falsy result throws), select the relevant hooks,
and process them with fresh caches. -/
def processSourceMap (env : Env)
    (recurse : HooksTree → Counters → (Except JsError (List HooksTree)) × Counters)
    (hookLog : HooksTree) (sourceFileUrls : List (String × String))
    (sourceMap : DownloadedFile) (cnt : Counters) :
    (Except JsError HooksTree) × Counters :=
  match env.consumerWith sourceMap.text with
  | .error _ => (.error (.jsError "source map could not be parsed"), cnt)
  | .ok consumer =>
    let sourceUrlOpt := jsMapGet sourceFileUrls sourceMap.url
    if !(jsTruthyStr sourceUrlOpt) then
      (.error (.jsError "Could not find source url for the map url"), cnt)
    else
      let sourceUrl := sourceUrlOpt.getD ""
      let relevantHooks := getRelevantHooksForFile hookLog sourceUrl
      match processHookList env recurse consumer relevantHooks ⟨[], []⟩ cnt with
      | (.ok (hooks, _), cnt') => (.ok hooks, cnt')
      | (.error e, cnt') => (.error e, cnt')

/-- `Promise.all` over the per-source-map groups, modelled sequentially:
the first rejection rejects the whole call. -/
def processSourceMaps (env : Env)
    (recurse : HooksTree → Counters → (Except JsError (List HooksTree)) × Counters)
    (hookLog : HooksTree) (sourceFileUrls : List (String × String)) :
    List DownloadedFile → Counters → (Except JsError (List HooksTree)) × Counters
  | [], cnt => (.ok [], cnt)
  | sm :: rest, cnt =>
    match processSourceMap env recurse hookLog sourceFileUrls sm cnt with
    | (.error e, cnt') => (.error e, cnt')
    | (.ok group, cnt') =>
      match processSourceMaps env recurse hookLog sourceFileUrls rest cnt' with
      | (.ok groups, cnt'') => (.ok (group :: groups), cnt'')
      | (.error e, cnt'') => (.error e, cnt'')

/-- Source `modifyHooksToAddVariableNames`: process every source map over
the given hook list; the sub-hook recursion re-enters this function with
the same maps.  The fuel only bounds that recursion depth (the caller hands
it one more than the tree depth, so exhaustion is unreachable); it is a
modelling device for the structural recursion, not part of the source. -/
def modifyHooksToAddVariableNames (env : Env) :
    Nat → HooksTree → List DownloadedFile → List (String × String) →
    List (String × String) → Counters → (Except JsError (List HooksTree)) × Counters
  | 0, _, _, _, _, cnt => (.error (.jsError "recursion fuel exhausted"), cnt)
  | fuel + 1, hookLog, sourceMaps, sourceMapUrls, sourceFileUrls, cnt =>
    processSourceMaps env
      (fun hl c =>
        modifyHooksToAddVariableNames env fuel hl sourceMaps sourceMapUrls sourceFileUrls c)
      hookLog sourceFileUrls sourceMaps cnt

/-- The first `.then` of `injectHookVariableNamesFunction`: derive each
bundle's source-map URL and record the two URL maps; `forEach` stops at the
first thrown exception. -/
def computeMapUrls :
    List DownloadedFile → List (String × String) → List (String × String) →
    Except JsError (List (String × String) × List (String × String))
  | [], sourceMapURLs, sourceFileURLs => .ok (sourceMapURLs, sourceFileURLs)
  | file :: rest, sourceMapURLs, sourceFileURLs => do
    let sourceMapURL ← getSourceMapURL file.url file.text
    computeMapUrls rest (jsMapSet sourceMapURLs file.url sourceMapURL)
      (jsMapSet sourceFileURLs sourceMapURL file.url)

/-- Source `injectHookVariableNamesFunction`, with the instrumentation
counters exposed: fetch the unique bundles, derive and fetch the source
maps, run `modifyHooksToAddVariableNames`, and flatten the per-file groups;
the final `.catch` resolves with the input tree on any rejection, and a
fetch that never settles leaves the whole promise pending. -/
def injectHookVariableNamesFunctionCounting (env : Env) (hookLog : HooksTree) :
    PromiseResult HooksTree × Counters :=
  let uniqueFilenames := getUniqueFileNames hookLog
  match promiseAll (uniqueFilenames.map (fetchFile env)) with
  | .pending => (.pending, ⟨0, 0⟩)
  | .rejected => (.resolved hookLog, ⟨0, 0⟩)
  | .resolved downloadedFiles =>
    match computeMapUrls downloadedFiles [] [] with
    | .error _ => (.resolved hookLog, ⟨0, 0⟩)
    | .ok (sourceMapURLs, sourceFileURLs) =>
      match promiseAll ((sourceMapURLs.map Prod.snd).map (fetchFile env)) with
      | .pending => (.pending, ⟨0, 0⟩)
      | .rejected => (.resolved hookLog, ⟨0, 0⟩)
      | .resolved sourceMaps =>
        let fuel := hookDepthList hookLog + 1
        let (res, counters) := modifyHooksToAddVariableNames env fuel hookLog sourceMaps
          sourceMapURLs sourceFileURLs ⟨0, 0⟩
        match res with
        | .ok data => (.resolved (data.foldl (· ++ ·) []), counters)
        | .error _ => (.resolved hookLog, counters)

/-- Source `injectHookVariableNamesFunction` (the resolve operation). -/
def injectHookVariableNamesFunction (env : Env) (hookLog : HooksTree) :
    PromiseResult HooksTree :=
  (injectHookVariableNamesFunctionCounting env hookLog).1

mutual
/-- Source `mergeVariableNamesIntoHookLog`: walk the old log by index
against the new log; when the old log is longer, reading `.id` of the
`undefined` entry `newHookLog[idx]` throws a `TypeError`.  The in-place
mutation is modelled by returning the updated old log; the per-pair body of
the `forEach` is split into `mergeHookPair`. -/
def mergeVariableNamesIntoHookLog : HooksTree → HooksTree → Except JsError HooksTree
  | [], _ => .ok []
  | _ :: _, [] => .error .typeError
  | hook :: oldRest, m :: newRest => do
    let hook' ← mergeHookPair hook m
    let rest ← mergeVariableNamesIntoHookLog oldRest newRest
    pure (hook' :: rest)

/-- One index of the merge walk: at an `id`-matching pair the variable name
is written and, when both sub-hook lists are non-empty and of equal length,
the sub-hooks are merged recursively; a non-matching pair is left
untouched. -/
def mergeHookPair : HooksNode → HooksNode → Except JsError HooksNode
  | ⟨id, nm, subHooks, src, hv⟩, m =>
    if id == m.id then
      if subHooks.length > 0 && subHooks.length == m.subHooks.length then do
        let mergedSub ← mergeVariableNamesIntoHookLog subHooks m.subHooks
        pure (⟨id, nm, mergedSub, src, m.hookVariableName⟩ : HooksNode)
      else
        pure (⟨id, nm, subHooks, src, m.hookVariableName⟩ : HooksNode)
    else
      pure (⟨id, nm, subHooks, src, hv⟩ : HooksNode)
end

/-! Concrete fixtures used by the claim theorems: hook observations,
declarator nodes and collaborator environments. -/

/-- An environment in which every fetch fails with a network error and no
collaborator ever succeeds. -/
def envNet : Env := ⟨fun _ => .networkError, fun _ => .error (), fun _ => .error ()⟩

/-- A custom-hook declarator `const [customFlag, customRef] = useCustomHook();`. -/
def targetCustom : NodePath :=
  ⟨.arrayPattern [.identifier "customFlag", .identifier "customRef"],
   some (.callExpression (.identifier "useCustomHook")), 8⟩

/-- The runtime observation of that custom hook (`id` is `null`). -/
def hookCustom : HooksNode :=
  ⟨none, "CustomHook", [], ⟨some "http://a/b.js", some 10, some 5⟩, none⟩

/-- The confirmed declarator `const countState = useState(1);`. -/
def targetState : NodePath :=
  ⟨.identifier "countState", some (.callExpression (.identifier "useState")), 3⟩

/-- The reader `const count = countState[0];`. -/
def memberAccess0 : NodePath :=
  ⟨.identifier "count",
   some (.memberExpression (.identifier "countState") (.numericLiteral 0) true), 4⟩

/-- The reader `const setCount = countState[1];`. -/
def memberAccess1 : NodePath :=
  ⟨.identifier "setCount",
   some (.memberExpression (.identifier "countState") (.numericLiteral 1) true), 5⟩

/-- The reader `const [anotherCount, setAnotherCount] = countState;`. -/
def destructureAlias : NodePath :=
  ⟨.arrayPattern [.identifier "anotherCount", .identifier "setAnotherCount"],
   some (.identifier "countState"), 6⟩

/-- A primitive state-hook observation reported at bundle position 10:5. -/
def hookState : HooksNode :=
  ⟨some 0, "State", [], ⟨some "http://a/b.js", some 10, some 5⟩, none⟩

/-- A state-hook observation whose `hookSource.fileName` is `null`. -/
def hookNullFile : HooksNode := ⟨some 0, "State", [], ⟨none, some 3, some 5⟩, none⟩

/-- The original-source AST oracle result: two destructured `useState`
declarations on lines 3 and 4 of `App.js`. -/
def appSrcAST : File :=
  [⟨.arrayPattern [.identifier "count", .identifier "setCount"],
    some (.callExpression (.identifier "useState")), 3⟩,
   ⟨.arrayPattern [.identifier "flag", .identifier "setFlag"],
    some (.callExpression (.identifier "useState")), 4⟩]

/-- A source-map consumer that sends bundle line 10 to `App.js` line 3 and
bundle line 20 to `App.js` line 4, with the content of `App.js` embedded. -/
def consumerA : SourceConsumer :=
  ⟨fun l _ => if l = 10 then (some 3, some "App.js")
              else if l = 20 then (some 4, some "App.js")
              else (none, none),
   fun s => if s = some "App.js" then some "APPSRC" else none⟩

/-- An environment with one bundle `http://a/main.js` carrying a well-formed
source-map comment, its map, and the `App.js` oracle data. -/
def envTwoHooks : Env :=
  ⟨fun u => if u = "http://a/main.js" then
              .response true (.ok "//# sourceMappingURL=main.js.map")
            else if u = "http://a/main.js.map" then .response true (.ok "MAPDATA")
            else .networkError,
   fun s => if s = "APPSRC" then .ok appSrcAST else .error (),
   fun t => if t = "MAPDATA" then .ok consumerA else .error ()⟩

/-- First hook of the bundle, at bundle position 10:5. -/
def hookA : HooksNode :=
  ⟨some 0, "State", [], ⟨some "http://a/main.js", some 10, some 5⟩, none⟩

/-- Second hook of the same bundle, at bundle position 20:7. -/
def hookB : HooksNode :=
  ⟨some 1, "State", [], ⟨some "http://a/main.js", some 20, some 7⟩, none⟩

/-- The environment of `envTwoHooks` extended with a second bundle
`http://b/other.js` whose body contains no source-map comment. -/
def envMixedBundles : Env :=
  ⟨fun u => if u = "http://a/main.js" then
              .response true (.ok "//# sourceMappingURL=main.js.map")
            else if u = "http://a/main.js.map" then .response true (.ok "MAPDATA")
            else if u = "http://b/other.js" then .response true (.ok "console.log(1);")
            else .networkError,
   fun s => if s = "APPSRC" then .ok appSrcAST else .error (),
   fun t => if t = "MAPDATA" then .ok consumerA else .error ()⟩

/-- A hook whose source file is the comment-less second bundle. -/
def hookOtherBundle : HooksNode :=
  ⟨some 2, "State", [], ⟨some "http://b/other.js", some 30, some 2⟩, none⟩

/-- An environment whose fetches always yield a 2xx response with body
`"BODY"`. -/
def envOk : Env :=
  ⟨fun _ => .response true (.ok "BODY"), fun _ => .error (), fun _ => .error ()⟩

/-- An environment whose fetches always yield a non-2xx response. -/
def envServerError : Env :=
  ⟨fun _ => .response false (.ok "BODY"), fun _ => .error (), fun _ => .error ()⟩

/-- An environment whose responses are 2xx but whose bodies fail to decode. -/
def envDecodeError : Env :=
  ⟨fun _ => .response true (.error ()), fun _ => .error (), fun _ => .error ()⟩

/-! Helper lemmas shared by the claim theorems. -/

/-- Successful bind in `Except` decomposes into a successful first step. -/
theorem exceptBind_ok {ε α β : Type} {e : Except ε α} {f : α → Except ε β} {b : β}
    (h : e >>= f = .ok b) : ∃ a, e = .ok a ∧ f a = .ok b := by
  cases e with
  | ok a => exact ⟨a, rfl, h⟩
  | error _ => simp [Bind.bind, Except.bind] at h

/-- A promise is settled when it is resolved or rejected; `fetchFile` leaves
it unsettled exactly on a network error. -/
def PromiseResult.settled {α : Type} : PromiseResult α → Bool
  | .resolved _ => true
  | .rejected => true
  | .pending => false

theorem promiseAll_one_resolved {α : Type} (v : α) :
    promiseAll [.resolved v] = .resolved [v] := rfl

theorem promiseAll_one_rejected {α : Type} :
    promiseAll [(.rejected : PromiseResult α)] = .rejected := rfl

theorem promiseAll_one_pending {α : Type} :
    promiseAll [(.pending : PromiseResult α)] = .pending := rfl

mutual
/-- Equality of every hook field except `hookVariableName`, recursively
through the sub-hook lists (so sub-hook count and order are included). -/
def framePreservedNode : HooksNode → HooksNode → Bool
  | ⟨id, nm, subHooks, src, _⟩, ⟨id', nm', subHooks', src', _⟩ =>
    id == id' && nm == nm' && src == src' && framePreservedList subHooks subHooks'

/-- Pointwise `framePreservedNode` on hook lists of equal length. -/
def framePreservedList : HooksTree → HooksTree → Bool
  | [], [] => true
  | h :: t, h' :: t' => framePreservedNode h h' && framePreservedList t t'
  | _, _ => false
end

mutual
theorem framePreservedNode_refl : (h : HooksNode) → framePreservedNode h h = true
  | ⟨id, nm, subHooks, src, hv⟩ => by
    simp [framePreservedNode, framePreservedList_refl subHooks]

theorem framePreservedList_refl : (l : HooksTree) → framePreservedList l l = true
  | [] => by simp [framePreservedList]
  | h :: t => by
    simp [framePreservedList, framePreservedNode_refl h, framePreservedList_refl t]
end

mutual
/-- One merge pair always succeeds, preserves the frame, writes the variable
name exactly at an `id` match and leaves a non-match untouched. -/
theorem mergeHookPair_spec : (hook m : HooksNode) → ∃ h',
    mergeHookPair hook m = .ok h' ∧ framePreservedNode hook h' = true ∧
    (hook.id = m.id → h'.hookVariableName = m.hookVariableName) ∧
    (hook.id ≠ m.id → h' = hook)
  | ⟨id, nm, subHooks, src, hv⟩, m => by
    cases hid : (id == m.id) with
    | false =>
      refine ⟨⟨id, nm, subHooks, src, hv⟩, ?_, ?_, ?_, ?_⟩
      · simp [mergeHookPair, hid]; rfl
      · exact framePreservedNode_refl _
      · intro h; simp_all
      · intro _; rfl
    | true =>
      have hideq : id = m.id := by simpa using hid
      cases hguard : (decide (subHooks.length > 0) && subHooks.length == m.subHooks.length) with
      | false =>
        refine ⟨⟨id, nm, subHooks, src, m.hookVariableName⟩, ?_, ?_, ?_, ?_⟩
        · simp [mergeHookPair, hid, hguard]; rfl
        · simp [framePreservedNode, framePreservedList_refl, hideq]
        · intro _; rfl
        · intro h; exact absurd hideq h
      | true =>
        have hlen : subHooks.length = m.subHooks.length := by
          have h2 := hguard; simp at h2; exact h2.2
        obtain ⟨r, hmr, hfl, hrlen⟩ := merge_spec_le subHooks m.subHooks (le_of_eq hlen)
        refine ⟨⟨id, nm, r, src, m.hookVariableName⟩, ?_, ?_, ?_, ?_⟩
        · simp [mergeHookPair, hid, hguard, hmr, Bind.bind, Except.bind, Pure.pure, Except.pure]
        · simp [framePreservedNode, hideq, hfl]
        · intro _; rfl
        · intro h; exact absurd hideq h

/-- When the new log is at least as long, the merge succeeds, preserves the
frame pointwise and keeps the old length. -/
theorem merge_spec_le : (old new : HooksTree) → old.length ≤ new.length →
    ∃ r, mergeVariableNamesIntoHookLog old new = .ok r ∧
      framePreservedList old r = true ∧ r.length = old.length
  | [], _, _ => ⟨[], rfl, rfl, rfl⟩
  | h :: t, [], hle => by simp at hle
  | h :: t, m :: nt, hle => by
    obtain ⟨h', hph, hfn, _, _⟩ := mergeHookPair_spec h m
    obtain ⟨r, hmr, hfl, hrlen⟩ := merge_spec_le t nt (by simpa using hle)
    refine ⟨h' :: r, ?_, ?_, ?_⟩
    · simp [mergeVariableNamesIntoHookLog, Bind.bind, Except.bind, hph, hmr,
            Pure.pure, Except.pure]
    · simp [framePreservedList, hfn, hfl]
    · simp [hrlen]
end

/-- A new log shorter than the old one always crashes the merge. -/
theorem merge_err_of_gt : (old new : HooksTree) → new.length < old.length →
    mergeVariableNamesIntoHookLog old new = .error .typeError
  | h :: t, [], _ => rfl
  | h :: t, m :: nt, hlt => by
    obtain ⟨h', hph, _, _, _⟩ := mergeHookPair_spec h m
    have hrec := merge_err_of_gt t nt (by simpa using hlt)
    simp [mergeVariableNamesIntoHookLog, Bind.bind, Except.bind, hph, hrec]

/-- A successful merge acts index-wise through `mergeHookPair`. -/
theorem merge_get_eq : (old new r : HooksTree) →
    mergeVariableNamesIntoHookLog old new = .ok r →
    ∀ i (hi : i < old.length) (hn : i < new.length) (hr : i < r.length),
      mergeHookPair (old.get ⟨i, hi⟩) (new.get ⟨i, hn⟩) = .ok (r.get ⟨i, hr⟩)
  | [], _, _, _ => by intro i hi; simp at hi
  | h :: t, [], r, hres => by simp [mergeVariableNamesIntoHookLog] at hres
  | h :: t, m :: nt, r, hres => by
    intro i hi hn hr
    rw [mergeVariableNamesIntoHookLog] at hres
    obtain ⟨h', hph, hrest⟩ := exceptBind_ok hres
    obtain ⟨rest, hmr, hpure⟩ := exceptBind_ok hrest
    have hreq : r = h' :: rest := by
      simpa [Pure.pure, Except.pure] using hpure.symm
    subst hreq
    match i with
    | 0 => simp [hph]
    | Nat.succ j =>
      exact merge_get_eq t nt rest hmr j (by simpa using hi) (by simpa using hn)
        (by simpa using hr)

/-- The classifier never throws on a declarator that has an initializer. -/
theorem isPotential_ok (d : NodePath) (h : d.init ≠ none) :
    ∃ b, isPotentialHookDeclaration d = .ok b := by
  cases hd : d.init with
  | none => exact absurd hd h
  | some n =>
    cases n <;>
      exact ⟨_, by simp [isPotentialHookDeclaration, hd, Bind.bind, Except.bind]; rfl⟩

/-- The collector succeeds on a file whose declarators all carry inits. -/
theorem getPotential_ok (ast : File) (h : ∀ d ∈ ast, d.init ≠ none) :
    ∃ l, getPotentialHookDeclarationsFromAST ast = .ok l := by
  induction ast with
  | nil => exact ⟨[], rfl⟩
  | cons d rest ih =>
    obtain ⟨b, hb⟩ := isPotential_ok d (h d (by simp))
    obtain ⟨l, hl⟩ := ih (fun x hx => h x (by simp [hx]))
    refine ⟨if b then d :: l else l, ?_⟩
    simp [getPotentialHookDeclarationsFromAST, hb, hl, Bind.bind, Except.bind]
    rfl

/-- The collector throws a `TypeError` whenever some declarator lacks an
initializer. -/
theorem getPotential_err (ast : File) (h : ∃ d ∈ ast, d.init = none) :
    getPotentialHookDeclarationsFromAST ast = .error .typeError := by
  induction ast with
  | nil => simp at h
  | cons d rest ih =>
    obtain ⟨d', hmem, hnone⟩ := h
    cases List.mem_cons.mp hmem with
    | inl heq =>
      subst heq
      simp [getPotentialHookDeclarationsFromAST, isPotentialHookDeclaration, hnone,
            Bind.bind, Except.bind]
    | inr hmem' =>
      cases hd : d.init with
      | none =>
        simp [getPotentialHookDeclarationsFromAST, isPotentialHookDeclaration, hd,
              Bind.bind, Except.bind]
      | some n =>
        obtain ⟨b, hb⟩ := isPotential_ok d (by simp [hd])
        have herr := ih ⟨d', hmem', hnone⟩
        simp [getPotentialHookDeclarationsFromAST, hb, herr, Bind.bind, Except.bind]

/-- Processing an empty hook log over any source maps yields groups that
flatten to the empty list (or an error). -/
theorem processSourceMaps_empty_hookLog (env : Env)
    (recurse : HooksTree → Counters → (Except JsError (List HooksTree)) × Counters)
    (sfU : List (String × String)) :
    ∀ (sms : List DownloadedFile) (cnt : Counters),
      (match (processSourceMaps env recurse [] sfU sms cnt).1 with
       | .ok groups => groups.foldl (· ++ ·) [] = ([] : HooksTree)
       | .error _ => True) := by
  intro sms
  induction sms with
  | nil => intro cnt; simp [processSourceMaps]
  | cons sm rest ih =>
    intro cnt
    unfold processSourceMaps processSourceMap
    cases hcw : env.consumerWith sm.text with
    | error e => simp
    | ok consumer =>
      cases htr : jsTruthyStr (jsMapGet sfU sm.url) with
      | false => simp [htr]
      | true =>
        have hrel : getRelevantHooksForFile [] ((jsMapGet sfU sm.url).getD "") = [] := by
          simp [getRelevantHooksForFile]
        simp only [htr, Bool.not_true, hrel, processHookList]
        have hrec := ih cnt
        cases hrest : (processSourceMaps env recurse [] sfU rest cnt) with
        | mk res2 c2 =>
          rw [hrest] at hrec
          cases res2 with
          | ok groups => simp_all
          | error e => simp_all

/-- Same property at the `modifyHooksToAddVariableNames` entry point. -/
theorem modify_empty_hookLog (env : Env) (fuel : Nat) (sms : List DownloadedFile)
    (smU sfU : List (String × String)) (cnt : Counters) :
    (match (modifyHooksToAddVariableNames env fuel [] sms smU sfU cnt).1 with
     | .ok groups => groups.foldl (· ++ ·) [] = ([] : HooksTree)
     | .error _ => True) := by
  cases fuel with
  | zero => simp [modifyHooksToAddVariableNames]
  | succ n => exact processSourceMaps_empty_hookLog env _ sfU sms cnt

/-- The sub-hook injection leaves a hook with no sub-hooks unchanged, as
long as the recursion flattens empty logs to the empty list. -/
theorem injectSubHooks_empty
    (recurse : HooksTree → Counters → (Except JsError (List HooksTree)) × Counters)
    (hook : HooksNode) (cnt : Counters)
    (hsub : hook.subHooks = [])
    (hrec : ∀ c : Counters, (match (recurse [] c).1 with
       | .ok groups => groups.foldl (· ++ ·) [] = ([] : HooksTree)
       | .error _ => True)) :
    (injectSubHooksWithVariableNames recurse hook cnt).1 = hook := by
  unfold injectSubHooksWithVariableNames
  rw [hsub]
  have h := hrec cnt
  cases hre : (recurse [] cnt) with
  | mk res c2 =>
    rw [hre] at h
    cases res with
    | ok groups =>
      simp only at h
      simp only [hre, h]
      cases hook with
      | mk id nm sub src hv =>
        simp only [HooksNode.subHooks] at hsub
        subst hsub
        rfl
    | error e => simp [hre]

/-- The injected hook differs from the original only in its
`hookVariableName` field. -/
theorem getHookNode_shape (hook : HooksNode) (nodes : List NodePath) (target : NodePath)
    (nh : HooksNode) (h : getHookNodeWithInjectedVariableName hook nodes target = .ok nh) :
    nh = { hook with hookVariableName := nh.hookVariableName } := by
  unfold getHookNodeWithInjectedVariableName at h
  obtain ⟨v, hv, hpure⟩ := exceptBind_ok h
  have hnh : nh = { hook with hookVariableName := v } := by
    have h2 := hpure.symm
    simpa [Pure.pure, Except.pure] using h2
  subst hnh; rfl

/-- Any successful per-hook processing of a sub-hook-free hook returns a
hook with the same `(id, name, subHooks)` structure. -/
theorem processHook_ok_structure (env : Env)
    (recurse : HooksTree → Counters → (Except JsError (List HooksTree)) × Counters)
    (consumer : SourceConsumer) (hook : HooksNode) (caches : MapCaches) (cnt : Counters)
    (h' : HooksNode) (caches' : MapCaches) (cnt' : Counters)
    (hsub : hook.subHooks = [])
    (hrec : ∀ c : Counters, (match (recurse [] c).1 with
       | .ok groups => groups.foldl (· ++ ·) [] = ([] : HooksTree)
       | .error _ => True))
    (hres : processHook env recurse consumer hook caches cnt = (.ok (h', caches'), cnt')) :
    structEqNode hook h' = true := by
  unfold processHook at hres
  split at hres
  · simp at hres
  · split at hres
    · simp at hres
    · next details parsed heq =>
      simp only [] at hres
      split at hres
      · simp at hres
      · next pool caches1 cnt2 hstep =>
        split at hres
        · simp at hres
        · split at hres
          · simp at hres
          · split at hres
            · simp only [Prod.mk.injEq, Except.ok.injEq] at hres
              obtain ⟨⟨h1, _⟩, _⟩ := hres
              have hi : (injectSubHooksWithVariableNames recurse hook cnt2).1 = hook :=
                injectSubHooks_empty recurse hook cnt2 hsub hrec
              rw [← h1, hi]
              exact structEqNode_refl hook
            · simp only [Prod.mk.injEq, Except.ok.injEq] at hres
              obtain ⟨⟨h1, _⟩, _⟩ := hres
              subst h1
              exact structEqNode_refl hook
        · next target hfind =>
          split at hres
          · simp only [Prod.mk.injEq, Except.ok.injEq] at hres
            obtain ⟨⟨h1, _⟩, _⟩ := hres
            subst h1
            exact structEqNode_refl hook
          · next nodes hflt =>
            split at hres
            · simp only [Prod.mk.injEq, Except.ok.injEq] at hres
              obtain ⟨⟨h1, _⟩, _⟩ := hres
              subst h1
              exact structEqNode_refl hook
            · next newHook hname =>
              have hshape := getHookNode_shape hook nodes target newHook hname
              split at hres
              · next hlen =>
                rw [hshape] at hlen
                simp [hsub] at hlen
              · simp only [Prod.mk.injEq, Except.ok.injEq] at hres
                obtain ⟨⟨h1, _⟩, _⟩ := hres
                subst h1
                rw [hshape]
                cases hook with
                | mk id nm sub src hv =>
                  simp [structEqNode, structEqList_refl]

/-- Sequential processing of sub-hook-free hooks preserves the list
structure. -/
theorem processHookList_structure (env : Env)
    (recurse : HooksTree → Counters → (Except JsError (List HooksTree)) × Counters)
    (consumer : SourceConsumer)
    (hrec : ∀ c : Counters, (match (recurse [] c).1 with
       | .ok groups => groups.foldl (· ++ ·) [] = ([] : HooksTree)
       | .error _ => True)) :
    ∀ (hooks : HooksTree) (caches : MapCaches) (cnt : Counters) (res : HooksTree)
      (caches' : MapCaches) (cnt' : Counters),
      hooks.all (fun h => h.subHooks.isEmpty) = true →
      processHookList env recurse consumer hooks caches cnt = (.ok (res, caches'), cnt') →
      structEqList hooks res = true := by
  intro hooks
  induction hooks with
  | nil =>
    intro caches cnt res caches' cnt' _ hres
    simp [processHookList] at hres
    obtain ⟨⟨h1, _⟩, _⟩ := hres
    subst h1
    rfl
  | cons h t ih =>
    intro caches cnt res caches' cnt' hall hres
    simp only [List.all_cons, Bool.and_eq_true] at hall
    obtain ⟨hsub1, hrest⟩ := hall
    unfold processHookList at hres
    split at hres
    · simp at hres
    · next h1 caches1 cnt1 hph =>
      split at hres
      · next rest caches2 cnt2 hpl =>
        simp only [Prod.mk.injEq, Except.ok.injEq] at hres
        obtain ⟨⟨hr, _⟩, _⟩ := hres
        subst hr
        have hn : structEqNode h h1 = true :=
          processHook_ok_structure env recurse consumer h caches cnt h1 caches1 cnt1
            (by simpa [List.isEmpty_iff] using hsub1) hrec hph
        have hl : structEqList t rest = true :=
          ih caches1 cnt1 rest caches2 cnt2 hrest hpl
        simp [structEqList, hn, hl]
      · simp at hres

/-- On a tree whose hooks all name the same non-empty file and carry no
sub-hooks, the unique-file-name walk produces exactly that file. -/
theorem getUniqueFileNames_all_same (f : String) (hf : f ≠ "") :
    ∀ (t : HooksTree) (acc : List String),
      t.all (fun h => h.hookSource.fileName == some f && h.subHooks.isEmpty) = true →
      getUniqueFileNamesList t acc =
        (if t.isEmpty then acc else (if acc.contains f then acc else acc ++ [f])) := by
  intro t
  induction t with
  | nil => intro acc _; simp [getUniqueFileNamesList]
  | cons h t ih =>
    intro acc hall
    simp only [List.all_cons, Bool.and_eq_true] at hall
    obtain ⟨⟨hfile, hsubE⟩, hrest⟩ := hall
    obtain ⟨id, nm, subHooks, src, hv⟩ := h
    simp only [beq_iff_eq] at hfile
    simp only [List.isEmpty_iff] at hsubE
    subst hsubE
    have hnode : getUniqueFileNamesNode ⟨id, nm, [], src, hv⟩ acc =
        (if acc.contains f then acc else acc ++ [f]) := by
      simp [getUniqueFileNamesNode, hfile, hf]
    have hacc1 : (if acc.contains f then acc else acc ++ [f]).contains f = true := by
      by_cases hc : f ∈ acc <;> simp [hc, List.elem_eq_mem]
    rw [getUniqueFileNamesList, hnode]
    rw [ih _ hrest]
    cases ht : t.isEmpty <;> simp_all [List.elem_eq_mem]

/-- On such a tree every hook is relevant for that file. -/
theorem getRelevantHooks_all_same (f : String) (hf : f ≠ "") (t : HooksTree)
    (hall : t.all (fun h => h.hookSource.fileName == some f && h.subHooks.isEmpty) = true) :
    getRelevantHooksForFile t f = t := by
  unfold getRelevantHooksForFile
  cases t with
  | nil => simp
  | cons h t' =>
    simp only [List.length_cons]
    rw [if_neg (by omega)]
    rw [List.filter_eq_self.mpr]
    intro a ha
    have h2 := List.all_eq_true.mp hall a ha
    simp only [Bool.and_eq_true, beq_iff_eq] at h2
    obtain ⟨hfile, _⟩ := h2
    simp [hfile, hf]

/-! Claim theorems. -/

/-- Claim C1 (counterexample): for the custom-hook declarator whose
associated set is exactly itself with an `ArrayPattern` id, the derived
`hookVariableName` is the empty string — a set, non-null value of length
zero — not `null` as the claim states. -/
theorem c1_counterexample_empty_string_not_null :
    getHookNodeWithInjectedVariableName hookCustom [targetCustom] targetCustom =
      .ok { hookCustom with hookVariableName := some "" } ∧
    Option.isSome (some "" : Option String) = true ∧ String.length "" = 0 :=
  ⟨rfl, rfl, rfl⟩

/-- Claim C1 (amended): for every confirmed custom-hook declarator
(`id == null`) whose associated set of size 1 is the declarator itself and
whose binding is an `ArrayPattern`, the pipeline derives the empty string
(a falsy value, which the repo's own test accepts) as the hook variable
name, never `null`. -/
theorem c1_amended_custom_array_pattern_yields_empty_string
    (hook : HooksNode) (target : NodePath) (es : List JsNode)
    (hid : hook.id = none) (htgt : target.id = .arrayPattern es) :
    getHookNodeWithInjectedVariableName hook [target] target =
      .ok { hook with hookVariableName := some "" } := by
  simp [getHookNodeWithInjectedVariableName, deriveHookVariableName, hid,
        declaratorBeq_refl, getHookVariableName, htgt]
  rfl

/-- Witness for C1 at the declarator
`const [customFlag, customRef] = useCustomHook();`. -/
theorem c1_amended_custom_array_pattern_yields_empty_string_witness :
    hookCustom.id = none ∧
    targetCustom.id = .arrayPattern [.identifier "customFlag", .identifier "customRef"] ∧
    getHookNodeWithInjectedVariableName hookCustom [targetCustom] targetCustom =
      .ok { hookCustom with hookVariableName := some "" } :=
  ⟨rfl, rfl,
   c1_amended_custom_array_pattern_yields_empty_string hookCustom targetCustom
     [.identifier "customFlag", .identifier "customRef"] rfl rfl⟩

/-- Claim C2 (counterexample): a tree holding one hook whose
`hookSource.fileName` is `null` resolves to the empty tree — the hook is
dropped, so the structure is not preserved. -/
theorem c2_counterexample_null_filename_hook_dropped :
    injectHookVariableNamesFunction envNet [hookNullFile] = .resolved [] ∧
    structEqList [hookNullFile] [] = false :=
  ⟨rfl, rfl⟩

/-- Claim C2 (amended): hooks with a `null` file name are dropped and
multi-file trees are regrouped by bundle, so structure preservation holds
on the single-bundle flat fragment: whenever every hook of the input names
the same non-empty source file and carries no sub-hooks, any settled result
of `resolve` has the same `(id, name, subHooks)` structure as the input
(failures return the input itself). -/
theorem c2_amended_structure_preserved_single_file_flat
    (env : Env) (t : HooksTree) (f : String) (r : HooksTree)
    (hall : t.all (fun h => h.hookSource.fileName == some f && h.subHooks.isEmpty) = true)
    (hf : f ≠ "")
    (hres : injectHookVariableNamesFunction env t = .resolved r) :
    structEqList t r = true := by
  cases t with
  | nil =>
    have h0 : injectHookVariableNamesFunction env ([] : HooksTree) = .resolved [] := rfl
    rw [h0] at hres
    cases hres
    rfl
  | cons h0 t0 =>
    unfold injectHookVariableNamesFunction injectHookVariableNamesFunctionCounting at hres
    have huniq : getUniqueFileNames (h0 :: t0) = [f] := by
      unfold getUniqueFileNames
      rw [if_neg (by simp)]
      rw [getUniqueFileNames_all_same f hf (h0 :: t0) [] hall]
      simp
    rw [huniq] at hres
    simp only [List.map_cons, List.map_nil] at hres
    have hallSub : (h0 :: t0).all (fun h => h.subHooks.isEmpty) = true := by
      simp only [List.all_eq_true] at hall ⊢
      intro x hx
      have hx2 := hall x hx
      simp only [Bool.and_eq_true] at hx2
      exact hx2.2
    cases hf1 : env.fetch f with
    | networkError =>
      simp only [fetchFile, hf1, promiseAll_one_pending] at hres
      simp at hres
    | response ok1 txt1 =>
      cases ok1 with
      | false =>
        simp only [fetchFile, hf1, Bool.false_eq_true, if_false, promiseAll_one_rejected] at hres
        simp only [PromiseResult.resolved.injEq] at hres
        subst hres
        exact structEqList_refl _
      | true =>
        cases txt1 with
        | error e =>
          simp only [fetchFile, hf1, if_true, promiseAll_one_rejected] at hres
          simp only [PromiseResult.resolved.injEq] at hres
          subst hres
          exact structEqList_refl _
        | ok text =>
          simp only [fetchFile, hf1, if_true, promiseAll_one_resolved] at hres
          cases hsm : getSourceMapURL f text with
          | error e =>
            simp only [computeMapUrls, hsm, Bind.bind, Except.bind] at hres
            simp only [PromiseResult.resolved.injEq] at hres
            subst hres
            exact structEqList_refl _
          | ok smu =>
            simp only [computeMapUrls, hsm, Bind.bind, Except.bind, jsMapSet,
                       List.map_cons, List.map_nil, Function.comp] at hres
            cases hf2 : env.fetch smu with
            | networkError =>
              simp only [fetchFile, hf2, promiseAll_one_pending] at hres
              simp at hres
            | response ok2 txt2 =>
              cases ok2 with
              | false =>
                simp only [fetchFile, hf2, Bool.false_eq_true, if_false,
                           promiseAll_one_rejected] at hres
                simp only [PromiseResult.resolved.injEq] at hres
                subst hres
                exact structEqList_refl _
              | true =>
                cases txt2 with
                | error e =>
                  simp only [fetchFile, hf2, if_true, promiseAll_one_rejected] at hres
                  simp only [PromiseResult.resolved.injEq] at hres
                  subst hres
                  exact structEqList_refl _
                | ok mtext =>
                  simp only [fetchFile, hf2, if_true, promiseAll_one_resolved] at hres
                  rw [modifyHooksToAddVariableNames] at hres
                  unfold processSourceMaps processSourceMap at hres
                  cases hcw : env.consumerWith mtext with
                  | error e =>
                    rw [hcw] at hres
                    simp only [PromiseResult.resolved.injEq] at hres
                    subst hres
                    exact structEqList_refl _
                  | ok consumer =>
                    rw [hcw] at hres
                    have hget : jsMapGet [(smu, f)] smu = some f := by simp [jsMapGet]
                    rw [hget] at hres
                    simp only [] at hres
                    have htruthy : jsTruthyStr (some f) = true := by simp [jsTruthyStr, hf]
                    rw [htruthy] at hres
                    simp only [Bool.not_true, Bool.false_eq_true, if_false,
                               Option.getD_some] at hres
                    rw [getRelevantHooks_all_same f hf (h0 :: t0) hall] at hres
                    cases hpl : processHookList env
                        (fun hl c => modifyHooksToAddVariableNames env
                          (hookDepthList (h0 :: t0)) hl [⟨smu, mtext⟩] [(f, smu)] [(smu, f)] c)
                        consumer (h0 :: t0) ⟨[], []⟩ ⟨0, 0⟩ with
                    | mk plres cpl =>
                      rw [hpl] at hres
                      cases plres with
                      | error e =>
                        simp only [PromiseResult.resolved.injEq] at hres
                        subst hres
                        exact structEqList_refl _
                      | ok pair =>
                        obtain ⟨res, cachesF⟩ := pair
                        simp only [processSourceMaps] at hres
                        simp only [List.foldl_cons, List.foldl_nil, List.nil_append,
                                   PromiseResult.resolved.injEq] at hres
                        subst hres
                        exact processHookList_structure env _ consumer
                          (fun c => modify_empty_hookLog env (hookDepthList (h0 :: t0))
                            [⟨smu, mtext⟩] [(f, smu)] [(smu, f)] c)
                          (h0 :: t0) ⟨[], []⟩ ⟨0, 0⟩ res cachesF cpl hallSub hpl

/-- Witness for C2 on the two-hook single-bundle environment. -/
theorem c2_amended_structure_preserved_single_file_flat_witness :
    ([hookA, hookB].all (fun h =>
       h.hookSource.fileName == some "http://a/main.js" && h.subHooks.isEmpty) = true) ∧
    ("http://a/main.js" == "") = false ∧
    injectHookVariableNamesFunction envTwoHooks [hookA, hookB] =
      .resolved [{ hookA with hookVariableName := some "count" },
                 { hookB with hookVariableName := some "flag" }] ∧
    structEqList [hookA, hookB]
      [{ hookA with hookVariableName := some "count" },
       { hookB with hookVariableName := some "flag" }] = true :=
  ⟨rfl, rfl, rfl,
   c2_amended_structure_preserved_single_file_flat envTwoHooks [hookA, hookB]
     "http://a/main.js" _ rfl (by decide) rfl⟩

/-- Claim C3 (bug evaluation): with one bundle, one source map and two hooks
translating into the same original file, the resolve call parses that file
twice — `getASTFromSourceFile` reads its AST cache but never writes it — so
a file is not parsed at most once per call (the candidate pool is collected
once, as its cache is written). -/
theorem c3_bug_file_parsed_once_per_hook :
    (getUniqueFileNames [hookA, hookB]).length = 1 ∧
    injectHookVariableNamesFunctionCounting envTwoHooks [hookA, hookB] =
      (.resolved [{ hookA with hookVariableName := some "count" },
                  { hookB with hookVariableName := some "flag" }], ⟨2, 1⟩) ∧
    (2 : Nat) > 1 :=
  ⟨rfl, rfl, by decide⟩

/-- Claim C4 (bug evaluation): a bundle body with zero source-map magic
comments makes `getSourceMapURL` dereference the `null` match array
(`TypeError`), and the resolve call on a tree with a well-mapped bundle A
and the comment-less bundle B returns the whole tree unresolved — bundle
A's hook is left unnamed although it resolves when processed alone, so the
failure is not isolated to B's file. -/
theorem c4_bug_zero_matches_crash_poisons_all_files :
    jsMatchAll "console.log(1);" = [] ∧
    getSourceMapURL "http://b/other.js" "console.log(1);" = .error .typeError ∧
    injectHookVariableNamesFunction envMixedBundles [hookA, hookOtherBundle] =
      .resolved [hookA, hookOtherBundle] ∧
    injectHookVariableNamesFunction envMixedBundles [hookA] =
      .resolved [{ hookA with hookVariableName := some "count" }] :=
  ⟨rfl, rfl, rfl, rfl⟩

/-- Claim C5 (counterexample): for the single magic comment with token
`x=y.map`, the extraction takes only `x` — the full-match string is split
on `'='` and element 1 taken, truncating the token at its first `'='` — so
the resolved URL is `http://a/x`, not `http://a/x=y.map`. -/
theorem c5_counterexample_token_truncated_at_equals :
    jsMatchAll "//# sourceMappingURL=x=y.map" = ["//# sourceMappingURL=x=y.map"] ∧
    getSourceMapURL "http://a/b.js" "//# sourceMappingURL=x=y.map" = .ok "http://a/x" ∧
    ("http://a/x" == "http://a/x=y.map") = false :=
  ⟨rfl, rfl, rfl⟩

/-- Claim C5 (amended): for every bundle body with exactly one magic-comment
match, the extracted fragment is element 1 of the full match split on `'='`
(a token containing `'='` is truncated at its first `'='`); the fragment is
concatenated after the bundle URL's directory and the result must pass the
URL-constructor check, else the extraction fails. -/
theorem c5_amended_single_match_split_resolution (url body m tok : String)
    (hm : jsMatchAll body = [m]) (htok : (jsSplit m '=').getD 1 "undefined" = tok) :
    getSourceMapURL url body =
      (if isValidUrl (jsSliceUpToLastSlash url ++ "/" ++ tok) then
        .ok (jsSliceUpToLastSlash url ++ "/" ++ tok)
      else .error (.jsError "Invalid URL created")) := by
  unfold getSourceMapURL
  rw [hm]
  simp [htok]
  split <;> simp_all

/-- Witness for C5 on a comment whose token has no `'='`. -/
theorem c5_amended_single_match_split_resolution_witness :
    jsMatchAll "//# sourceMappingURL=foo.map" = ["//# sourceMappingURL=foo.map"] ∧
    (jsSplit "//# sourceMappingURL=foo.map" '=').getD 1 "undefined" = "foo.map" ∧
    getSourceMapURL "http://a/b.js" "//# sourceMappingURL=foo.map" =
      .ok "http://a/foo.map" :=
  ⟨rfl, rfl, by
    have h := c5_amended_single_match_split_resolution "http://a/b.js"
      "//# sourceMappingURL=foo.map" "//# sourceMappingURL=foo.map" "foo.map" rfl rfl
    rw [h]; rfl⟩

/-- Claim C6 (bug evaluation): `fetchFile` resolves on a 2xx with readable
body and rejects on a non-2xx or a failing `text()`, but on a network error
the rejection of `fetch` has no handler, so the promise never settles —
the operation does not terminate in either success or failure. -/
theorem c6_bug_network_error_never_settles :
    fetchFile envOk "http://x" = .resolved ⟨"http://x", "BODY"⟩ ∧
    fetchFile envServerError "http://x" = .rejected ∧
    fetchFile envDecodeError "http://x" = .rejected ∧
    fetchFile envNet "http://x" = .pending ∧
    PromiseResult.settled (fetchFile envNet "http://x") = false :=
  ⟨rfl, rfl, rfl, rfl, rfl⟩

/-- Claim C7 (counterexample): for the size-2 associated set holding the
index-0 accessor `const count = countState[0];` together with the
destructuring reader `const [anotherCount, setAnotherCount] = countState;`,
name derivation throws a `TypeError` (reading `.type` of the `undefined`
`property` of the identifier init) instead of naming the hook `count` as
the claim's filter semantics would; the second conjunct shows the index-0
member alone is the claim's surviving member with name `count`. -/
theorem c7_counterexample_mixed_member_set_throws :
    getHookNodeWithInjectedVariableName hookState [memberAccess0, destructureAlias]
      targetState = .error .typeError ∧
    filterMemberWithHookVariableName memberAccess0 = .ok true ∧
    getHookVariableName memberAccess0 = .ok (some "count") :=
  ⟨rfl, rfl, rfl⟩

/-- Claim C7 (amended): for a size-2 associated set on which the index-0
filter itself does not throw (both members' inits are member expressions),
the hook is named exactly when one member survives the
`NumericLiteral`-`0` filter, by that member's binding name; with zero or
two survivors the derivation throws and the hook stays unnamed. -/
theorem c7_amended_two_member_expression_filter
    (hook : HooksNode) (target n0 n1 : NodePath) (b0 b1 : Bool)
    (h0 : filterMemberWithHookVariableName n0 = .ok b0)
    (h1 : filterMemberWithHookVariableName n1 = .ok b1) :
    getHookNodeWithInjectedVariableName hook [n0, n1] target =
      (match (if b0 then [n0] else []) ++ (if b1 then [n1] else []) with
       | [m] => (getHookVariableName m).map (fun v => { hook with hookVariableName := v })
       | _ => .error (.jsError "Couldn’t isolate AST Node containing hook variable.")) := by
  unfold getHookNodeWithInjectedVariableName deriveHookVariableName
  simp [exceptFilter, h0, h1]
  cases b0 <;> cases b1 <;>
    simp [Bind.bind, Except.bind, Pure.pure, Except.pure, Functor.map, Except.map]

/-- Witness for C7 on the two member accessors `countState[0]` and
`countState[1]`. -/
theorem c7_amended_two_member_expression_filter_witness :
    filterMemberWithHookVariableName memberAccess0 = .ok true ∧
    filterMemberWithHookVariableName memberAccess1 = .ok false ∧
    getHookNodeWithInjectedVariableName hookState [memberAccess0, memberAccess1]
      targetState = .ok { hookState with hookVariableName := some "count" } :=
  ⟨rfl, rfl, by
    have h := c7_amended_two_member_expression_filter hookState targetState
      memberAccess0 memberAccess1 true false rfl rfl
    rw [h]; rfl⟩

/-- Claim C8 (confirmed): for every confirmed hook declarator whose
associated set has size 0 or greater than 2, the derived name is
`getHookVariableName` of the confirmed declarator itself (the
`bindingNameOf` fallback), written into the hook. -/
theorem c8_fallback_to_confirmed_declarator
    (hook : HooksNode) (nodes : List NodePath) (target : NodePath)
    (h1 : nodes.length ≠ 1) (h2 : nodes.length ≠ 2) :
    getHookNodeWithInjectedVariableName hook nodes target =
      (getHookVariableName target).map (fun v => { hook with hookVariableName := v }) := by
  match nodes with
  | [] =>
    unfold getHookNodeWithInjectedVariableName deriveHookVariableName
    cases h : getHookVariableName target <;>
      simp [h, Except.map, Bind.bind, Except.bind, Pure.pure, Except.pure, Functor.map]
  | [a] => exact absurd rfl h1
  | [a, b] => exact absurd rfl h2
  | a :: b :: c :: t =>
    unfold getHookNodeWithInjectedVariableName deriveHookVariableName
    cases h : getHookVariableName target <;>
      simp [h, Except.map, Bind.bind, Except.bind, Pure.pure, Except.pure, Functor.map]

/-- Witness for C8 on the three-reader scenario: the state hook bound to
the bare alias `countState` with three readers is named `countState`. -/
theorem c8_fallback_to_confirmed_declarator_witness :
    ([memberAccess0, memberAccess1, destructureAlias].length == 1) = false ∧
    ([memberAccess0, memberAccess1, destructureAlias].length == 2) = false ∧
    getHookNodeWithInjectedVariableName hookState
      [memberAccess0, memberAccess1, destructureAlias] targetState =
      .ok { hookState with hookVariableName := some "countState" } :=
  ⟨rfl, rfl, by
    have h := c8_fallback_to_confirmed_declarator hookState
      [memberAccess0, memberAccess1, destructureAlias] targetState (by decide) (by decide)
    rw [h]; rfl⟩

/-- Claim C9 (counterexample): merging an old log of one hook with an empty
new log throws a `TypeError` (reading `.id` of the `undefined`
`newHookLog[0]`) instead of leaving the non-matching position untouched, so
the claim fails for pairs where the new tree is shorter. -/
theorem c9_counterexample_shorter_new_tree_throws :
    mergeVariableNamesIntoHookLog [hookA] [] = .error .typeError ∧
    [hookA].length = 1 ∧ List.length ([] : HooksTree) = 0 :=
  ⟨rfl, rfl, rfl⟩

/-- Claim C9 (amended): when the new tree is at least as long as the old
tree, the merge succeeds, writes only `hookVariableName` at `id`-matching
positions, leaves non-matching positions untouched, and preserves every
other field with sub-hook count and order (recursing only into equal-length
sub-hook lists); when the new tree is shorter, the merge throws a
`TypeError`. -/
theorem c9_amended_merge_writes_only_variable_names (old new : HooksTree) :
    (old.length ≤ new.length →
      ∃ r, mergeVariableNamesIntoHookLog old new = .ok r ∧
        framePreservedList old r = true ∧ r.length = old.length ∧
        ∀ i (hi : i < old.length) (hn : i < new.length) (hr : i < r.length),
          ((old.get ⟨i, hi⟩).id = (new.get ⟨i, hn⟩).id →
            (r.get ⟨i, hr⟩).hookVariableName = (new.get ⟨i, hn⟩).hookVariableName) ∧
          ((old.get ⟨i, hi⟩).id ≠ (new.get ⟨i, hn⟩).id →
            r.get ⟨i, hr⟩ = old.get ⟨i, hi⟩)) ∧
    (new.length < old.length →
      mergeVariableNamesIntoHookLog old new = .error .typeError) := by
  refine ⟨?_, merge_err_of_gt old new⟩
  intro hle
  obtain ⟨r, hmr, hfl, hlen⟩ := merge_spec_le old new hle
  refine ⟨r, hmr, hfl, hlen, ?_⟩
  intro i hi hn hr
  have hpair := merge_get_eq old new r hmr i hi hn hr
  obtain ⟨h', hph, _, hwrite, huntouched⟩ :=
    mergeHookPair_spec (old.get ⟨i, hi⟩) (new.get ⟨i, hn⟩)
  rw [hph] at hpair
  injection hpair with heq
  subst heq
  exact ⟨hwrite, huntouched⟩

/-- Witness for C9: a matching first pair receives the name, a
non-matching second pair stays untouched, and the frame is preserved. -/
theorem c9_amended_merge_writes_only_variable_names_witness :
    mergeVariableNamesIntoHookLog [hookA, hookB]
      [{ hookA with hookVariableName := some "count" }, hookCustom] =
      .ok [{ hookA with hookVariableName := some "count" }, hookB] ∧
    framePreservedList [hookA, hookB]
      [{ hookA with hookVariableName := some "count" }, hookB] = true := by
  obtain ⟨r, hr, hfp, hlen, hidx⟩ :=
    (c9_amended_merge_writes_only_variable_names [hookA, hookB]
      [{ hookA with hookVariableName := some "count" }, hookCustom]).1 (by decide)
  have heval : mergeVariableNamesIntoHookLog [hookA, hookB]
      [{ hookA with hookVariableName := some "count" }, hookCustom] =
      .ok [{ hookA with hookVariableName := some "count" }, hookB] := rfl
  rw [heval] at hr
  injection hr with hr2
  subst hr2
  exact ⟨heval, hfp⟩

/-- Claim C10 (confirmed): the declaration collector is total exactly under
the precondition that every `VariableDeclarator` carries an initializer:
with all inits present it succeeds, and one `init: null` declarator
(`let x;`) makes the classification dereference the null init, so
collection for the whole file errors with a `TypeError`. -/
theorem c10_collector_total_iff_inits_present :
    (∀ ast : File, (∀ d ∈ ast, d.init ≠ none) →
      ∃ l, getPotentialHookDeclarationsFromAST ast = .ok l) ∧
    (∀ ast : File, (∃ d ∈ ast, d.init = none) →
      getPotentialHookDeclarationsFromAST ast = .error .typeError) :=
  ⟨getPotential_ok, getPotential_err⟩

/-- Witness for C10: the file `let x;` fails collection while a file of two
initialized declarators collects successfully. -/
theorem c10_collector_total_iff_inits_present_witness :
    getPotentialHookDeclarationsFromAST [⟨.identifier "x", none, 1⟩] =
      .error .typeError ∧
    getPotentialHookDeclarationsFromAST appSrcAST = .ok appSrcAST := by
  constructor
  · exact c10_collector_total_iff_inits_present.2 [⟨.identifier "x", none, 1⟩]
      ⟨⟨.identifier "x", none, 1⟩, by simp, rfl⟩
  · obtain ⟨l, hl⟩ := c10_collector_total_iff_inits_present.1 appSrcAST
      (by
        intro d hd
        simp only [appSrcAST, List.mem_cons, List.not_mem_nil, or_false] at hd
        rcases hd with rfl | rfl <;> simp)
    exact (rfl : getPotentialHookDeclarationsFromAST appSrcAST = .ok appSrcAST)
